import Mathlib

/-!
Shallow embedding of `src/src/main.rs` (arkworks R1CS tutorial).

The program defines `CubeCircuit` with fields x and y enforcing `y = x^3 + x + 5` over the
BLS12-381 scalar field, builds the constraint system with `ark-relations` /
`ark-r1cs-std` gadgets, extracts the sparse matrices `A, B, C` after inlining
symbolic linear combinations, and runs Groth16 setup / prove / verify.

We embed the constraint-system layer (variables, sorted linear combinations,
symbolic-LC inlining, `to_matrices`, `is_satisfied`) as pure Lean functions
following the arkworks semantics that `main.rs` exercises, generic over a
commutative ring with decidable equality (the program instantiates the
BLS12-381 scalar field `Fr`).  The Groth16 pipeline itself lives in the
`ark-groth16` dependency, not in this repository; it is modelled from the
specification further below.
-/

section R1CS

variable {F : Type} [CommRing F] [DecidableEq F]

/-- Variables of the constraint system, mirroring `ark_relations::r1cs::Variable`:
`Zero`, `One`, `Instance(i)`, `Witness(i)`, `SymbolicLc(i)`. -/
inductive Var where
  | zero : Var
  | one : Var
  | inst : Nat → Var
  | wit : Nat → Var
  | symLc : Nat → Var
deriving DecidableEq, Repr

/-- Constructor rank, used for the ordering of variables (declaration order of
the Rust enum). -/
def Var.kind : Var → Nat
  | .zero => 0
  | .one => 1
  | .inst _ => 2
  | .wit _ => 3
  | .symLc _ => 4

/-- Index payload of a variable (0 for `zero`/`one`). -/
def Var.index : Var → Nat
  | .zero => 0
  | .one => 0
  | .inst i => i
  | .wit i => i
  | .symLc i => i

/-- Strict order on variables: by constructor rank, then by index — the order
`ark-relations` keeps linear-combination terms sorted in. -/
def Var.ltB (a b : Var) : Bool :=
  a.kind < b.kind || (a.kind == b.kind && a.index < b.index)

/-- A linear combination: a list of `(coefficient, variable)` terms kept sorted
by variable, duplicates merged — mirroring `LinearCombination<F>`. -/
abbrev LC (F : Type) : Type := List (F × Var)

/-- Insert one term into a sorted linear combination, summing the coefficients
when the variable is already present (the positioned insertion
`LinearCombination` uses). -/
def lcInsert : LC F → F × Var → LC F
  | [], t => [t]
  | a :: rest, t =>
    if Var.ltB a.2 t.2 then a :: lcInsert rest t
    else if Var.ltB t.2 a.2 then t :: a :: rest
    else (a.1 + t.1, a.2) :: rest

/-- Merge two sorted linear combinations, summing coefficients on equal
variables (the `Add` of `LinearCombination`). -/
def lcAdd (l1 l2 : LC F) : LC F := l2.foldl lcInsert l1

/-- Scale every coefficient of a linear combination (the `Mul<F>` of
`LinearCombination`); term order is unchanged. -/
def lcScale (c : F) (l : LC F) : LC F := l.map (fun t => (c * t.1, t.2))

/-- The state of `ark_relations::r1cs::ConstraintSystem` as used by `main.rs`:
the two assignment vectors (`instance_assignment` starts as `[1]`), the list of
constraints as triples of linear combinations, and the map of symbolic linear
combinations created by `new_lc`. -/
structure ConstraintSys (F : Type) where
  instance_assignment : List F
  witness_assignment : List F
  constraints : List (LC F × LC F × LC F)
  lc_map : List (LC F)
deriving Repr

/-- Rust `ConstraintSystem::new_ref()`: empty system; the instance assignment starts
with the constant `1` at index 0 (`main.rs` line 51). -/
def newCS : ConstraintSys F := ⟨[1], [], [], []⟩

/-- Rust `cs.new_input_variable`: append the value to `instance_assignment` and
return the new `Instance` variable. -/
def newInput (cs : ConstraintSys F) (v : F) : Var × ConstraintSys F :=
  (Var.inst cs.instance_assignment.length,
   { cs with instance_assignment := cs.instance_assignment ++ [v] })

/-- Rust `cs.new_witness_variable`: append the value to `witness_assignment` and
return the new `Witness` variable. -/
def newWitness (cs : ConstraintSys F) (v : F) : Var × ConstraintSys F :=
  (Var.wit cs.witness_assignment.length,
   { cs with witness_assignment := cs.witness_assignment ++ [v] })

/-- Rust `cs.new_lc`: record a symbolic linear combination and return its
`SymbolicLc` variable. -/
def newLc (cs : ConstraintSys F) (l : LC F) : Var × ConstraintSys F :=
  (Var.symLc cs.lc_map.length, { cs with lc_map := cs.lc_map ++ [l] })

/-- Rust `cs.enforce_constraint(a, b, c)`: append one constraint row. -/
def enforceConstraint (cs : ConstraintSys F) (a b c : LC F) : ConstraintSys F :=
  { cs with constraints := cs.constraints ++ [(a, b, c)] }

/-- Rust `FpVar<F>` as used by the circuit: either a constant or an allocated
variable carrying its assigned value (`AllocatedFp` in proving mode). -/
inductive FpV (F : Type) where
  | const : F → FpV F
  | var : Var → F → FpV F

/-- Rust `AllocatedFp::add_constant`: if the constant is zero the variable is
returned unchanged, otherwise a symbolic LC `self + c · One` is allocated.
No constraint is emitted. -/
def addConstant (cs : ConstraintSys F) (v : Var) (xval : F) (c : F) :
    FpV F × ConstraintSys F :=
  if c = 0 then (FpV.var v xval, cs)
  else
    let (nv, cs) := newLc cs (lcAdd [(1, v)] [(c, Var.one)])
    (FpV.var nv (xval + c), cs)

/-- Rust `FpVar` addition (`main.rs` line 34 uses Var + Constant and Var + Var):
constants fold; Var + Constant delegates to `add_constant`; Var + Var
allocates the symbolic LC `self + other`.  No constraint is emitted. -/
def fpAdd (cs : ConstraintSys F) : FpV F → FpV F → FpV F × ConstraintSys F
  | .const a, .const b => (FpV.const (a + b), cs)
  | .const c, .var v xv => addConstant cs v xv c
  | .var v xv, .const c => addConstant cs v xv c
  | .var v xv, .var w yv =>
    let (nv, cs) := newLc cs (lcAdd [(1, v)] [(1, w)])
    (FpV.var nv (xv + yv), cs)

/-- Rust `AllocatedFp::mul_constant`: zero gives the constant zero, one returns the
variable unchanged, otherwise a scaled symbolic LC is allocated. -/
def mulConstant (cs : ConstraintSys F) (v : Var) (xval : F) (c : F) :
    FpV F × ConstraintSys F :=
  if c = 0 then (FpV.const 0, cs)
  else if c = 1 then (FpV.var v xval, cs)
  else
    let (nv, cs) := newLc cs (lcScale c [(1, v)])
    (FpV.var nv (xval * c), cs)

/-- Rust `FpVar` multiplication (`main.rs` lines 30 and 32 multiply Var · Var):
for two allocated variables a fresh witness is allocated with the product
value and the constraint `self · other = product` is enforced
(`AllocatedFp::mul`). -/
def fpMul (cs : ConstraintSys F) : FpV F → FpV F → FpV F × ConstraintSys F
  | .const a, .const b => (FpV.const (a * b), cs)
  | .const c, .var v xv => mulConstant cs v xv c
  | .var v xv, .const c => mulConstant cs v xv c
  | .var v xv, .var w yv =>
    let (pv, cs) := newWitness cs (xv * yv)
    let cs := enforceConstraint cs [(1, v)] [(1, w)] [(1, pv)]
    (FpV.var pv (xv * yv), cs)

/-- Synthesis errors, mirroring `ark_relations::r1cs::SynthesisError` as far as
this circuit can raise them. -/
inductive SynthErr where
  | unsatisfiable : SynthErr
  | assignmentMissing : SynthErr
deriving DecidableEq, Repr

/-- Rust `FpVar::enforce_equal` (`main.rs` line 34): for two allocated variables this
is `AllocatedFp::conditional_enforce_equal` with a constant-true condition,
which enforces `(self − other) · 1 = 0`; equality of two constants either
succeeds with no constraint or fails synthesis. -/
def fpEnforceEqual (cs : ConstraintSys F) :
    FpV F → FpV F → Except SynthErr (ConstraintSys F)
  | .const a, .const b => if a = b then .ok cs else .error .unsatisfiable
  | .const c, .var v _ =>
    .ok (enforceConstraint cs (lcAdd [(c, Var.one)] [(-1, v)]) [(1, Var.one)] [])
  | .var v _, .const c =>
    .ok (enforceConstraint cs (lcAdd [(1, v)] [(-c, Var.one)]) [(1, Var.one)] [])
  | .var v _, .var w _ =>
    .ok (enforceConstraint cs (lcAdd [(1, v)] [(-1, w)]) [(1, Var.one)] [])

/-- Rust `CubeCircuit::generate_constraints` (`main.rs` lines 22–36): allocate the
public input `y` and witness `x`, multiply to get `x²` and `x³`, and enforce
`x + 5 + x³ = y`. -/
def generateConstraints (x y : F) (cs : ConstraintSys F) :
    Except SynthErr (ConstraintSys F) :=
  let (yv, cs) := newInput cs y
  let (xv, cs) := newWitness cs x
  let yVar := FpV.var yv y
  let xVar := FpV.var xv x
  let (xsq, cs) := fpMul cs xVar xVar
  let (xcu, cs) := fpMul cs xsq xVar
  let (s1, cs) := fpAdd cs xVar (FpV.const 5)
  let (s2, cs) := fpAdd cs s1 xcu
  fpEnforceEqual cs s2 yVar

/-- Build the constraint system exactly as `main.rs` lines 51–52 do. -/
def buildCS (x y : F) : Except SynthErr (ConstraintSys F) :=
  generateConstraints x y newCS

/-- Extract the system from a successful build (`main.rs` unwraps). -/
def csOf (r : Except SynthErr (ConstraintSys F)) : ConstraintSys F :=
  match r with
  | .ok cs => cs
  | .error _ => newCS

/-- The concatenated assignment vector `z = instance ++ witness`
(`main.rs` lines 61–63). -/
def zVec (cs : ConstraintSys F) : List F :=
  cs.instance_assignment ++ cs.witness_assignment

/-- Inline one term of a linear combination against the already-inlined prefix
of the LC map: a `SymbolicLc` term expands (scaled) to its stored LC, any other
term stays. -/
def inlineTerm (done : List (LC F)) (t : F × Var) : LC F :=
  match t.2 with
  | Var.symLc i => lcScale t.1 (done.getD i [])
  | _ => [t]

/-- Inline a whole linear combination, merging the expansions in sorted
order. -/
def inlineLC (done : List (LC F)) (l : LC F) : LC F :=
  l.foldl (fun acc t => lcAdd acc (inlineTerm done t)) []

/-- Rust `cs.inline_all_lcs()` (`main.rs` line 76): process the LC map in insertion
order, expanding each entry against the already-inlined prefix, so no entry
references a `SymbolicLc` variable afterwards. -/
def inlineMap (m : List (LC F)) : List (LC F) :=
  m.foldl (fun done l => done ++ [inlineLC done l]) []

/-- Column index of a variable in `z`: `One ↦ 0`, `Instance i ↦ i`,
`Witness i ↦ numInstance + i` (`Variable::get_index_unchecked`).  `Zero` and
`SymbolicLc` never survive inlining on the path of this program. -/
def colIndex (numInstance : Nat) : Var → Nat
  | .zero => 0
  | .one => 0
  | .inst i => i
  | .wit i => numInstance + i
  | .symLc i => i

/-- One matrix row from an inlined linear combination: zero coefficients are
filtered and variables become column indices (`make_row` inside `to_matrices`). -/
def makeRow (numInstance : Nat) (l : LC F) : List (F × Nat) :=
  l.filterMap (fun t => if t.1 = 0 then none else some (t.1, colIndex numInstance t.2))

/-- The output of `cs.to_matrices()` (`main.rs` line 77):
`ark_relations::r1cs::ConstraintMatrices`. -/
structure ConstraintMatrices (F : Type) where
  num_instance_variables : Nat
  num_witness_variables : Nat
  num_constraints : Nat
  a : List (List (F × Nat))
  b : List (List (F × Nat))
  c : List (List (F × Nat))
deriving Repr

/-- Rust `inline_all_lcs` followed by `to_matrices` (`main.rs` lines 76–81). -/
def toMatrices (cs : ConstraintSys F) : ConstraintMatrices F :=
  let done := inlineMap cs.lc_map
  let n := cs.instance_assignment.length
  { num_instance_variables := n
    num_witness_variables := cs.witness_assignment.length
    num_constraints := cs.constraints.length
    a := cs.constraints.map (fun t => makeRow n (inlineLC done t.1))
    b := cs.constraints.map (fun t => makeRow n (inlineLC done t.2.1))
    c := cs.constraints.map (fun t => makeRow n (inlineLC done t.2.2)) }

/-- Evaluate an inlined (symbolic-free) linear combination against the
assignments. -/
def evalVar (cs : ConstraintSys F) : Var → F
  | .zero => 0
  | .one => 1
  | .inst i => cs.instance_assignment.getD i 0
  | .wit i => cs.witness_assignment.getD i 0
  | .symLc _ => 0

/-- Value of a linear combination under the current assignment; symbolic terms
are expanded through the inlined LC map first (this matches the cached
evaluation `ark-relations` uses in `is_satisfied`). -/
def evalLC (cs : ConstraintSys F) (l : LC F) : F :=
  (inlineLC (inlineMap cs.lc_map) l).foldl (fun acc t => acc + t.1 * evalVar cs t.2) 0

/-- Rust `cs.is_satisfied()` (`main.rs` line 53): every constraint row satisfies
`(A·z) · (B·z) = C·z`. -/
def isSatisfied (cs : ConstraintSys F) : Bool :=
  cs.constraints.all (fun t => evalLC cs t.1 * evalLC cs t.2.1 == evalLC cs t.2.2)

/-- Dot product of a sparse matrix row with an assignment vector `z`. -/
def dotRow (row : List (F × Nat)) (z : List F) : F :=
  row.foldl (fun acc t => acc + t.1 * z.getD t.2 0) 0

/-- The per-row R1CS check over extracted matrices: every row `i` satisfies
`(A_i·z) · (B_i·z) = C_i·z`. -/
def matSat (m : ConstraintMatrices F) (z : List F) : Bool :=
  (m.a.zip (m.b.zip m.c)).all
    (fun t => dotRow t.1 z * dotRow t.2.1 z == dotRow t.2.2 z)

end R1CS

section ConcreteField

/-- Modulus of the BLS12-381 scalar field `Fr` (`ark_bls12_381::Fr`). -/
abbrev pBLS : Nat :=
  52435875175126190479447740508185965837690552500527637822603658699938581184513

/-- The field the program instantiates: the BLS12-381 scalar field. -/
abbrev Fr : Type := ZMod pBLS

end ConcreteField

section BuildShape

variable {F : Type} [CommRing F] [DecidableEq F]

/-- The constraint system `generate_constraints` produces when `5 ≠ 0` in the
field (in particular over `Fr`): `z = [1, y] ++ [x, x², x³]`, the two
multiplication constraints, the final equality constraint referencing the
symbolic sum `x + 5 + x³`, and the two symbolic LCs recorded by the
additions. -/
def csMain (x y : F) : ConstraintSys F :=
  { instance_assignment := [1, y]
    witness_assignment := [x, x*x, x*x*x]
    constraints := [([(1, Var.wit 0)], [(1, Var.wit 0)], [(1, Var.wit 1)]),
                    ([(1, Var.wit 1)], [(1, Var.wit 0)], [(1, Var.wit 2)]),
                    ([(-1, Var.inst 1), (1, Var.symLc 1)], [(1, Var.one)], [])]
    lc_map := [[(5, Var.one), (1, Var.wit 0)], [(1, Var.wit 2), (1, Var.symLc 0)]] }

/-- The constraint system produced in a field of characteristic 5, where
`add_constant` short-circuits on the zero constant and only one symbolic LC is
recorded. -/
def csChar5 (x y : F) : ConstraintSys F :=
  { instance_assignment := [1, y]
    witness_assignment := [x, x*x, x*x*x]
    constraints := [([(1, Var.wit 0)], [(1, Var.wit 0)], [(1, Var.wit 1)]),
                    ([(1, Var.wit 1)], [(1, Var.wit 0)], [(1, Var.wit 2)]),
                    ([(-1, Var.inst 1), (1, Var.symLc 0)], [(1, Var.one)], [])]
    lc_map := [[(1, Var.wit 0), (1, Var.wit 2)]] }

/-- All column indices occurring in the three matrices lie below the declared
column count `num_instance_variables + num_witness_variables`. -/
def colsBound (m : ConstraintMatrices F) : Bool :=
  (m.a ++ m.b ++ m.c).all (fun row => row.all
    (fun t => t.2 < m.num_instance_variables + m.num_witness_variables))

end BuildShape

section ConcreteMatrices

/-- The matrices `to_matrices` yields for this circuit over `Fr`, exactly as
documented in `main.rs` lines 102–117. -/
def matMainFr : ConstraintMatrices Fr :=
  { num_instance_variables := 2
    num_witness_variables := 3
    num_constraints := 3
    a := [[(1, 2)], [(1, 3)], [(5, 0), (-1, 1), (1, 2), (1, 4)]]
    b := [[(1, 2)], [(1, 2)], [(1, 0)]]
    c := [[(1, 3)], [(1, 4)], []] }

end ConcreteMatrices

section Groth16Model

variable {F : Type} [CommRing F] [DecidableEq F]

/-- Modelled from the spec: the error taxonomy of the Groth16 pipeline (§7);
`ark-groth16` is a dependency, not part of the source of this repository. -/
inductive GrothErr where
  | witnessInconsistency : GrothErr
  | invalidProofEncoding : GrothErr
deriving DecidableEq, Repr

/-- Modelled from the spec: the observable phases of a `prove` call — the
witness-satisfaction check, and the multi-scalar multiplications that
constitute the expensive cryptographic work (§4.4). -/
inductive ProveStep where
  | checkWitness : ProveStep
  | msm : ProveStep
deriving DecidableEq, Repr

/-- Modelled from the spec: the proving key of the CRS is tied to the exact
matrix shape produced at setup (§3, §4.3); the group-element commitments
themselves are external pairing arithmetic, out of scope (§1, §6), so only the
matrices the key was derived from are recorded. -/
structure PKey (F : Type) where
  matrices : ConstraintMatrices F

/-- Modelled from the spec: the verifying key, the public half of the CRS
(§4.3). -/
structure VKey (F : Type) where
  matrices : ConstraintMatrices F

/-- Modelled from the spec: a proof is three group elements (§3) whose
pairing arithmetic is an external capability; it is modelled as an ideal
commitment binding the instance assignment it attests, together with the
validity of its group-element encoding (§4.5 rejects malformed encodings). -/
structure GProof (F : Type) where
  instAttested : List F
  encodingValid : Bool

/-- Modelled from the spec (§4.3; `main.rs` lines 121–122):
`circuit_specific_setup` builds the constraint system from the circuit and
derives both keys from its matrices; the trapdoor scalars do not outlive the
call and so do not appear in the output. -/
def groth16Setup (x y : F) : PKey F × VKey F :=
  let cs := csOf (buildCS x y)
  (⟨toMatrices cs⟩, ⟨toMatrices cs⟩)

/-- Modelled from the spec (§4.4; `main.rs` line 126): the prover synthesizes
the circuit, verifies `is_satisfied` before any cryptographic work, fails fast
with `WitnessInconsistencyError` when the check fails, and otherwise performs
the multi-scalar multiplications and emits a proof attesting the instance
assignment.  The second component records the steps performed, in order. -/
def groth16Prove (pk : PKey F) (x y : F) :
    Except GrothErr (GProof F) × List ProveStep :=
  let cs := csOf (buildCS x y)
  if isSatisfied cs then
    (.ok ⟨cs.instance_assignment, true⟩, [.checkWitness, .msm, .msm, .msm])
  else
    (.error .witnessInconsistency, [.checkWitness])

/-- Modelled from the spec (§4.5): the pairing-product equation, evaluated in
the ideal model — it holds exactly when the proof attests the instance
assignment `[1] ++ public_inputs` the verifier supplies. -/
def pairingCheck (vk : VKey F) (pubInputs : List F) (pr : GProof F) : Bool :=
  pr.instAttested == 1 :: pubInputs

/-- Modelled from the spec (§4.5, §7; `main.rs` line 132): verification
rejects malformed group-element encodings with `InvalidProofEncoding`, and
otherwise deterministically returns the boolean value of the pairing-product
equation — an equation that does not hold yields `Ok false`, never an
error. -/
def groth16Verify (vk : VKey F) (pubInputs : List F) (pr : GProof F) :
    Except GrothErr Bool :=
  if pr.encodingValid then .ok (pairingCheck vk pubInputs pr)
  else .error .invalidProofEncoding

/-- The setup → prove → verify pipeline of `main.rs` lines 119–134: compute
`y = x³ + x + 5`, run circuit-specific setup, prove, then verify against the
public input `[y]`. -/
def roundTrip (x : F) : Except GrothErr Bool :=
  let y := x * x * x + x + 5
  let keys := groth16Setup x y
  ((groth16Prove keys.1 x y).1).bind (fun pr => groth16Verify keys.2 [y] pr)

end Groth16Model

section BuildShapeTheorems

variable {F : Type} [CommRing F] [DecidableEq F]

theorem build_spec_main (x y : F) (h : (5:F) ≠ 0) : buildCS x y = .ok (csMain x y) := by
  simp only [buildCS, generateConstraints, newCS, newInput, newWitness, fpMul, fpAdd,
    addConstant, newLc, enforceConstraint, fpEnforceEqual, if_neg h]
  rfl

theorem build_spec_char5 (x y : F) (h : (5:F) = 0) : buildCS x y = .ok (csChar5 x y) := by
  simp only [buildCS, generateConstraints, newCS, newInput, newWitness, fpMul, fpAdd,
    addConstant, newLc, enforceConstraint, fpEnforceEqual, if_pos h]
  rfl

theorem sat_main (x y : F) : isSatisfied (csMain x y) = true ↔ y = x^3 + x + 5 := by
  simp only [isSatisfied, csMain, evalLC, evalVar, inlineMap, inlineLC, inlineTerm,
    lcAdd, lcInsert, lcScale, Var.ltB, Var.kind, Var.index, List.foldl, List.all,
    List.map, List.getD, List.get?, Option.getD, Bool.and_eq_true, beq_iff_eq]
  constructor
  · rintro ⟨-, -, h3, -⟩
    linear_combination (-1 : F) * h3
  · intro h
    subst h
    refine ⟨by ring, by ring, by ring, trivial⟩

theorem sat_char5 (x y : F) (h5 : (5:F) = 0) :
    isSatisfied (csChar5 x y) = true ↔ y = x^3 + x + 5 := by
  simp only [isSatisfied, csChar5, evalLC, evalVar, inlineMap, inlineLC, inlineTerm,
    lcAdd, lcInsert, lcScale, Var.ltB, Var.kind, Var.index, List.foldl, List.all,
    List.map, List.getD, List.get?, Option.getD, Bool.and_eq_true, beq_iff_eq]
  constructor
  · rintro ⟨-, -, h3, -⟩
    linear_combination (-1 : F) * h3 - h5
  · intro h
    subst h
    refine ⟨by ring, by ring, by linear_combination -h5, trivial⟩

/-- Satisfaction of the built system characterizes the public relation, in
either characteristic branch. -/
theorem sat_iff (x y : F) :
    isSatisfied (csOf (buildCS x y)) = true ↔ y = x^3 + x + 5 := by
  by_cases h5 : (5:F) = 0
  · rw [build_spec_char5 x y h5]
    exact sat_char5 x y h5
  · rw [build_spec_main x y h5]
    exact sat_main x y

/-- The instance assignment of the built system is `[1, y]` in either
branch. -/
theorem inst_assign_built (x y : F) :
    (csOf (buildCS x y)).instance_assignment = [1, y] := by
  by_cases h5 : (5:F) = 0
  · rw [build_spec_char5 x y h5]; rfl
  · rw [build_spec_main x y h5]; rfl

/-- Building never fails: the result is always `ok` of the extracted system. -/
theorem build_ok (x y : F) : buildCS x y = Except.ok (csOf (buildCS x y)) := by
  by_cases h5 : (5:F) = 0
  · rw [build_spec_char5 x y h5]; rfl
  · rw [build_spec_main x y h5]; rfl

/-- Over `Fr` the extracted matrices of the main branch are the concrete
documented matrices, for every input pair. -/
theorem toMatrices_main_fr (x y : Fr) : toMatrices (csMain x y) = matMainFr := rfl

end BuildShapeTheorems

section Claims1

/-- C1: for the concrete input x = 3 over the BLS12-381 scalar field,
y = x³ + x + 5 = 35, building the circuit yields the assignment vector
z = [1, 35, 3, 9, 27] and exactly three constraints, and the extracted sparse
matrices are row-for-row `A = [[(1,2)], [(1,3)], [(5,0),(-1,1),(1,2),(1,4)]]`,
`B = [[(1,2)], [(1,2)], [(1,0)]]`, `C = [[(1,3)], [(1,4)], []]`. -/
theorem concrete_scenario_x3 :
    (3:Fr) * 3 * 3 + 3 + 5 = 35 ∧
    zVec (csOf (buildCS (3:Fr) 35)) = [1, 35, 3, 9, 27] ∧
    (csOf (buildCS (3:Fr) 35)).constraints.length = 3 ∧
    (toMatrices (csOf (buildCS (3:Fr) 35))).num_constraints = 3 ∧
    (toMatrices (csOf (buildCS (3:Fr) 35))).a =
      [[(1, 2)], [(1, 3)], [(5, 0), (-1, 1), (1, 2), (1, 4)]] ∧
    (toMatrices (csOf (buildCS (3:Fr) 35))).b = [[(1, 2)], [(1, 2)], [(1, 0)]] ∧
    (toMatrices (csOf (buildCS (3:Fr) 35))).c = [[(1, 3)], [(1, 4)], []] := by
  decide

/-- C2: for every field value x, with y = x³ + x + 5, building the constraint
system succeeds and `is_satisfied()` returns true. -/
theorem build_satisfied_of_relation {F : Type} [CommRing F] [DecidableEq F] (x : F) :
    (buildCS x (x^3 + x + 5)).map isSatisfied = Except.ok true := by
  rw [build_ok]
  simpa [Except.map] using (sat_iff x (x^3 + x + 5)).mpr rfl

/-- C7: for every choice of circuit inputs, entry 0 of the assignment vector z
(the first entry of the instance assignment) is the multiplicative identity. -/
theorem constant_entry_is_one {F : Type} [CommRing F] [DecidableEq F] (x y : F) :
    (csOf (buildCS x y)).instance_assignment.getD 0 0 = 1 ∧
    (zVec (csOf (buildCS x y))).getD 0 0 = 1 := by
  have h := inst_assign_built x y
  constructor
  · rw [h]; rfl
  · simp [zVec, h]

/-- C9: matrix extraction is deterministic — building and extracting twice
from the same circuit inputs produces identical matrices, synthetic inlined
entries included. -/
theorem matrix_extraction_deterministic {F : Type} [CommRing F] [DecidableEq F]
    (x1 y1 x2 y2 : F) (hx : x1 = x2) (hy : y1 = y2) :
    toMatrices (csOf (buildCS x1 y1)) = toMatrices (csOf (buildCS x2 y2)) := by
  subst hx; subst hy; rfl

/-- Witness for C9: at the concrete input of the program the two extractions agree. -/
theorem matrix_extraction_deterministic_witness :
    toMatrices (csOf (buildCS (3:Fr) 35)) = toMatrices (csOf (buildCS (3:Fr) 35)) :=
  matrix_extraction_deterministic 3 35 3 35 rfl rfl

/-- C10: constraint synthesis never fails — for every pair (x, y) the build
returns Ok — and the resulting system is satisfied exactly when
y = x³ + x + 5: the circuit encodes the public relation with no spurious
satisfying input pairs. -/
theorem circuit_encodes_relation {F : Type} [CommRing F] [DecidableEq F] (x y : F) :
    (∃ cs, buildCS x y = Except.ok cs) ∧
    (isSatisfied (csOf (buildCS x y)) = true ↔ y = x^3 + x + 5) :=
  ⟨⟨csOf (buildCS x y), build_ok x y⟩, sat_iff x y⟩

end Claims1

section Claims3

/-- C3 counterexample: at x = 3, y = 35, flipping entry 0 of
z = [1, 35, 3, 9, 27] to the different value 0 leaves every row of the
per-row check (A·z)·(B·z) = C·z over the extracted matrices satisfied —
row 3 becomes (−5)·0 = 0 — so the claim fails at index 0. -/
theorem flip_constant_entry_still_satisfied :
    (0:Fr) ≠ (zVec (csOf (buildCS (3:Fr) 35))).getD 0 0 ∧
    matSat (toMatrices (csOf (buildCS (3:Fr) 35)))
      ((zVec (csOf (buildCS (3:Fr) 35))).set 0 0) = true := by
  decide

/-- C3 amended: for every index i of the correct assignment vector
z = [1, y, x, x², x³] other than the constant entry at index 0, and every
field value v different from z[i], replacing z[i] by v makes the per-row
check over the extracted matrices false. -/
theorem flip_entry_unsat_amended (x v : Fr) (i : Nat) (h1 : 1 ≤ i) (h4 : i ≤ 4)
    (hv : v ≠ (zVec (csOf (buildCS x (x^3 + x + 5)))).getD i 0) :
    matSat (toMatrices (csOf (buildCS x (x^3 + x + 5))))
      ((zVec (csOf (buildCS x (x^3 + x + 5)))).set i v) = false := by
  have h5 : (5:Fr) ≠ 0 := by decide
  rw [build_spec_main _ _ h5] at hv ⊢
  have hv2 : v ≠ ([1, x^3+x+5, x, x*x, x*x*x] : List Fr).getD i 0 := hv
  show matSat matMainFr (([1, x^3+x+5, x, x*x, x*x*x] : List Fr).set i v) = false
  clear hv
  interval_cases i
  · simp only [List.getD, List.get?, Option.getD] at hv2
    rw [Bool.eq_false_iff]
    intro hsat
    simp only [matSat, matMainFr, dotRow, List.set, List.zip, List.zipWith, List.all,
      List.foldl, List.getD, List.get?, Option.getD, Bool.and_eq_true, beq_iff_eq] at hsat
    obtain ⟨-, -, h3, -⟩ := hsat
    exact hv2 (by linear_combination -h3)
  · simp only [List.getD, List.get?, Option.getD] at hv2
    rw [Bool.eq_false_iff]
    intro hsat
    simp only [matSat, matMainFr, dotRow, List.set, List.zip, List.zipWith, List.all,
      List.foldl, List.getD, List.get?, Option.getD, Bool.and_eq_true, beq_iff_eq] at hsat
    obtain ⟨-, -, h3, -⟩ := hsat
    exact hv2 (by linear_combination h3)
  · simp only [List.getD, List.get?, Option.getD] at hv2
    rw [Bool.eq_false_iff]
    intro hsat
    simp only [matSat, matMainFr, dotRow, List.set, List.zip, List.zipWith, List.all,
      List.foldl, List.getD, List.get?, Option.getD, Bool.and_eq_true, beq_iff_eq] at hsat
    obtain ⟨h1x, -, -⟩ := hsat
    exact hv2 (by linear_combination -h1x)
  · simp only [List.getD, List.get?, Option.getD] at hv2
    rw [Bool.eq_false_iff]
    intro hsat
    simp only [matSat, matMainFr, dotRow, List.set, List.zip, List.zipWith, List.all,
      List.foldl, List.getD, List.get?, Option.getD, Bool.and_eq_true, beq_iff_eq] at hsat
    obtain ⟨-, h2x, -⟩ := hsat
    exact hv2 (by linear_combination -h2x)

/-- Witness for the amended C3: flipping z[1] (the public input y) from 35 to 0
at x = 3 makes the per-row check false. -/
theorem flip_entry_unsat_amended_witness :
    (0:Fr) ≠ (zVec (csOf (buildCS (3:Fr) (3^3 + 3 + 5)))).getD 1 0 ∧
    matSat (toMatrices (csOf (buildCS (3:Fr) (3^3 + 3 + 5))))
      ((zVec (csOf (buildCS (3:Fr) (3^3 + 3 + 5)))).set 1 0) = false :=
  ⟨by decide, flip_entry_unsat_amended 3 0 1 (by decide) (by decide) (by decide)⟩

end Claims3

section Claims6

/-- C6: for every constructed constraint system, the extracted matrices A, B, C
have the same row count, equal to the number of constraints, and the same
declared column count, equal to len(z) = 1 + |public inputs| + |private
witnesses|, with the column index of every sparse entry below it. -/
theorem matrix_shape_invariant {F : Type} [CommRing F] [DecidableEq F] (x y : F) :
    (toMatrices (csOf (buildCS x y))).a.length = (csOf (buildCS x y)).constraints.length ∧
    (toMatrices (csOf (buildCS x y))).b.length = (csOf (buildCS x y)).constraints.length ∧
    (toMatrices (csOf (buildCS x y))).c.length = (csOf (buildCS x y)).constraints.length ∧
    (toMatrices (csOf (buildCS x y))).num_constraints = (csOf (buildCS x y)).constraints.length ∧
    (toMatrices (csOf (buildCS x y))).num_instance_variables +
      (toMatrices (csOf (buildCS x y))).num_witness_variables = (zVec (csOf (buildCS x y))).length ∧
    colsBound (toMatrices (csOf (buildCS x y))) = true := by
  refine ⟨by simp [toMatrices], by simp [toMatrices], by simp [toMatrices],
    by simp [toMatrices], ?_, ?_⟩
  · by_cases h5 : (5:F) = 0
    · rw [build_spec_char5 x y h5]; rfl
    · rw [build_spec_main x y h5]; rfl
  · by_cases h5 : (5:F) = 0
    · rw [build_spec_char5 x y h5]
      show colsBound (toMatrices (csChar5 x y)) = true
      simp only [colsBound, toMatrices, csChar5, inlineMap, inlineLC, inlineTerm,
        lcAdd, lcInsert, lcScale, makeRow, Var.ltB, Var.kind, Var.index, colIndex,
        List.foldl, List.map, List.filterMap, List.append, List.all, List.getD,
        List.get?, Option.getD]
      split_ifs <;> simp
    · rw [build_spec_main x y h5]
      show colsBound (toMatrices (csMain x y)) = true
      simp only [colsBound, toMatrices, csMain, inlineMap, inlineLC, inlineTerm,
        lcAdd, lcInsert, lcScale, makeRow, Var.ltB, Var.kind, Var.index, colIndex,
        List.foldl, List.map, List.filterMap, List.append, List.all, List.getD,
        List.get?, Option.getD]
      split_ifs <;> simp

end Claims6

section ClaimsGroth16

/-- C4: the prover checks witness satisfaction before any cryptographic work;
for an unsatisfying witness it fails with `WitnessInconsistencyError`, its step
trace is just the check — no multi-scalar multiplication is reached — and no
proof is emitted.  (Prover modelled from the spec; `ark-groth16` is not part of
the source of this repository.) -/
theorem prover_short_circuits {F : Type} [CommRing F] [DecidableEq F]
    (pk : PKey F) (x y : F) (h : isSatisfied (csOf (buildCS x y)) = false) :
    (groth16Prove pk x y).1 = .error .witnessInconsistency ∧
    (groth16Prove pk x y).2 = [ProveStep.checkWitness] ∧
    ProveStep.msm ∉ (groth16Prove pk x y).2 := by
  refine ⟨?_, ?_, ?_⟩ <;> simp [groth16Prove, h]

/-- Witness for C4: at x = 3 with the wrong public input y = 0 the witness is
unsatisfying and the prover short-circuits. -/
theorem prover_short_circuits_witness :
    isSatisfied (csOf (buildCS (3:Fr) 0)) = false ∧
    ((groth16Prove (groth16Setup (3:Fr) 0).1 3 0).1 = .error .witnessInconsistency ∧
     (groth16Prove (groth16Setup (3:Fr) 0).1 3 0).2 = [ProveStep.checkWitness] ∧
     ProveStep.msm ∉ (groth16Prove (groth16Setup (3:Fr) 0).1 3 0).2) :=
  ⟨by decide, prover_short_circuits (groth16Setup (3:Fr) 0).1 3 0 (by decide)⟩

/-- C5: verification is a deterministic boolean function of the verifying key,
public inputs and proof; with a well-formed encoding it returns `Ok` of the
value of the pairing-product equation — `Ok false` when the equation fails, never an
error — and an error arises only for a malformed encoding, and is then
`InvalidProofEncoding`.  (Verifier modelled from the spec; `ark-groth16` is not
part of the source of this repository.) -/
theorem verify_deterministic_boolean {F : Type} [CommRing F] [DecidableEq F]
    (vk : VKey F) (pub : List F) (pr : GProof F) :
    (pr.encodingValid = true →
       groth16Verify vk pub pr = .ok (pairingCheck vk pub pr)) ∧
    (pr.encodingValid = true → pairingCheck vk pub pr = false →
       groth16Verify vk pub pr = .ok false) ∧
    (∀ e, groth16Verify vk pub pr = .error e →
       pr.encodingValid = false ∧ e = GrothErr.invalidProofEncoding) := by
  refine ⟨fun h => by simp [groth16Verify, h], fun h hp => by simp [groth16Verify, h, hp], ?_⟩
  intro e he
  by_cases h : pr.encodingValid = true
  · simp [groth16Verify, h] at he
  · simp only [Bool.not_eq_true] at h
    simp [groth16Verify, h] at he
    exact ⟨h, he.symm⟩

/-- Witness for C5: a well-formed proof attesting the wrong public input is
rejected with `Ok false`, not an error. -/
theorem verify_deterministic_boolean_witness :
    pairingCheck (groth16Setup (3:Fr) 35).2 [35] ⟨[1, 36], true⟩ = false ∧
    groth16Verify (groth16Setup (3:Fr) 35).2 [35] ⟨[1, 36], true⟩ = .ok false :=
  ⟨by decide,
   (verify_deterministic_boolean (groth16Setup (3:Fr) 35).2 [35] ⟨[1, 36], true⟩).2.1
     rfl (by decide)⟩

/-- C8: for every field value x with y = x³ + x + 5, running setup on the
circuit, proving with the satisfying witness, then verifying with public input
[y] returns true.  (Groth16 pipeline modelled from the spec; `ark-groth16` is
not part of the source of this repository.) -/
theorem setup_prove_verify_round_trip {F : Type} [CommRing F] [DecidableEq F] (x : F) :
    roundTrip x = Except.ok true := by
  have hsat : isSatisfied (csOf (buildCS x (x*x*x + x + 5))) = true :=
    (sat_iff x (x*x*x + x + 5)).mpr (by ring)
  have hinst := inst_assign_built x (x*x*x + x + 5)
  simp [roundTrip, groth16Setup, groth16Prove, groth16Verify, pairingCheck, hsat, hinst,
    Except.bind]

end ClaimsGroth16
